import Mathlib

/-!
Verification of the LDAP authentication plugin (auth-ldap) of this
repository: the filter template engine (evalFilter), the configuration
derivation (configure) and the credential verification operation
(AuthLdap authenticate), shallowly embedded from the source.
-/

namespace AuthLdap

/-- The opening brace character. -/
def obrace : Char := '\x7b'

/-- The closing brace character. -/
def cbrace : Char := '\x7d'

/-- Modelled from the spec and the ldapjs dependency: the filter escape
function imported by the source (`escape` from ldapjs, lib/filters/escape),
which maps each query-language metacharacter to its hexadecimal escape
sequence: asterisk, parentheses, backslash and the null byte; every other
character stands unchanged. This function is not part of the repository,
only imported by it. -/
def escapeChar (c : Char) : List Char :=
  if c = '*' then ['\\', '2', 'a']
  else if c = '(' then ['\\', '2', '8']
  else if c = ')' then ['\\', '2', '9']
  else if c = '\\' then ['\\', '5', 'c']
  else if c = '\x00' then ['\\', '0', '0']
  else [c]

/-- Escape of a whole string, character by character. -/
def escape (s : String) : String :=
  ⟨(s.data.map escapeChar).flatten⟩

/-- Attempt to match the placeholder pattern of the source `VAR_RE`
regular expression at the head of the character list: two opening braces,
one or more characters other than a closing brace (the name), then two
closing braces.  Greedy matching of the name class cannot backtrack here
because the name class excludes the closing brace, so the run is the
maximal run of characters other than the closing brace. -/
def matchPh (l : List Char) : Option (String × List Char) :=
  match l with
  | c1 :: c2 :: rest =>
    if c1 = obrace then
      if c2 = obrace then
        let name := rest.takeWhile (fun c => c != cbrace)
        if name.isEmpty then none
        else
          match rest.dropWhile (fun c => c != cbrace) with
          | d1 :: d2 :: rest2 =>
            if d1 = cbrace then
              if d2 = cbrace then some (⟨name⟩, rest2) else none
            else none
          | _ => none
      else none
    else none
  | _ => none

/-- The left-to-right scan of the source `filter.replace(VAR_RE, ...)`:
at each position, if the placeholder pattern matches, the variable is
looked up — an undefined variable throws `invalid variable: name`,
otherwise the escaped value is substituted and the scan resumes after the
match; replacements are not rescanned.  The scan is driven by fuel, which
the top entry point supplies as the length of the template, enough because
every step consumes at least one character of the template. -/
def evalGo (vars : String → Option String) : Nat → List Char → Except String (List Char)
  | _, [] => .ok []
  | 0, _ :: _ => .ok []
  | fuel + 1, c :: cs =>
    match matchPh (c :: cs) with
    | some (name, rest) =>
      match vars name with
      | none => .error ("invalid variable: " ++ name)
      | some v => (evalGo vars fuel rest).map (fun tail => (escape v).data ++ tail)
    | none => (evalGo vars fuel cs).map (fun tail => c :: tail)

/-- The source function `evalFilter`: render a filter template against a
variable set, throwing on the first placeholder whose variable is
undefined. -/
def evalFilter (filter : String) (vars : String → Option String) : Except String String :=
  (evalGo vars filter.data.length filter.data).map (fun l => ⟨l⟩)

/-- One segment of a parsed template: a literal character, or a
placeholder naming a variable. -/
inductive Seg where
  | lit (c : Char)
  | ph (name : String)
deriving DecidableEq

/-- Parse a template into its segments by the same left-to-right scan as
`evalGo`. -/
def segsGo : Nat → List Char → List Seg
  | _, [] => []
  | 0, _ :: _ => []
  | fuel + 1, c :: cs =>
    match matchPh (c :: cs) with
    | some (name, rest) => .ph name :: segsGo fuel rest
    | none => .lit c :: segsGo fuel cs

/-- Segments of a template. -/
def segsOf (l : List Char) : List Seg := segsGo l.length l

/-- The placeholder names a template references, in scan order. -/
def refsOf (l : List Char) : List String :=
  (segsOf l).filterMap (fun s => match s with | .lit _ => none | .ph n => some n)

/-- Render one segment: literals stand, placeholders are replaced by the
escaped value of their variable. -/
def renderSeg (vars : String → Option String) : Seg → List Char
  | .lit c => [c]
  | .ph n => (escape ((vars n).getD "")).data

/-- The first referenced variable of a segment list that the variable set
leaves undefined, if any. -/
def firstMissing (vars : String → Option String) (segs : List Seg) : Option String :=
  segs.findSome? (fun s =>
    match s with
    | .lit _ => none
    | .ph n => match vars n with | some _ => none | none => some n)

/-- Whether a character list contains a substring matching the
placeholder pattern. -/
def hasToken : List Char → Bool
  | [] => false
  | c :: cs => (matchPh (c :: cs)).isSome || hasToken cs

/-- A character is none of the query-language structural metacharacters:
parentheses, asterisk, null byte. -/
def nonMeta (c : Char) : Prop :=
  c ≠ '(' ∧ c ≠ ')' ∧ c ≠ '*' ∧ c ≠ '\x00'

instance (c : Char) : Decidable (nonMeta c) := by
  unfold nonMeta
  infer_instance

theorem matchPh_some_iff (l : List Char) (n : String) (r : List Char) :
    matchPh l = some (n, r) ↔
      n.data ≠ [] ∧ cbrace ∉ n.data ∧
        l = obrace :: obrace :: (n.data ++ cbrace :: cbrace :: r) := by
  constructor
  · intro h
    match l with
    | [] => simp [matchPh] at h
    | [c] => simp [matchPh] at h
    | c1 :: c2 :: rest =>
      simp only [matchPh] at h
      split at h
      case isFalse => simp at h
      case isTrue h1 =>
        split at h
        case isFalse => simp at h
        case isTrue h2 =>
          split at h
          case isTrue => simp at h
          case isFalse h3 =>
            split at h
            case h_2 => simp at h
            case h_1 d1 d2 rest2 hdrop =>
              split at h
              case isFalse => simp at h
              case isTrue h4 =>
                split at h
                case isFalse => simp at h
                case isTrue h5 =>
                  rw [Option.some.injEq, Prod.mk.injEq] at h
                  obtain ⟨hn, hr⟩ := h
                  subst h1 h2 h4 h5 hr
                  have hdata : n.data = rest.takeWhile (fun c => c != cbrace) := by
                    rw [← hn]
                  refine ⟨?_, ?_, ?_⟩
                  · rw [hdata]
                    intro hemp
                    exact h3 (by rw [hemp]; rfl)
                  · rw [hdata]
                    intro hmem
                    have := List.mem_takeWhile_imp hmem
                    simp at this
                  · have hsplit := List.takeWhile_append_dropWhile
                      (fun c => c != cbrace) rest
                    rw [hdrop, ← hdata] at hsplit
                    rw [← hsplit]
  · rintro ⟨hne, hnotin, rfl⟩
    have hall : ∀ a ∈ n.data, (fun c => c != cbrace) a = true := by
      intro a ha
      have hne2 : a ≠ cbrace := fun hcontra => hnotin (hcontra ▸ ha)
      simpa using hne2
    have htake : (n.data ++ cbrace :: cbrace :: r).takeWhile (fun c => c != cbrace)
        = n.data := by
      rw [List.takeWhile_append_of_pos hall]
      simp [List.takeWhile_cons]
    have hdrop : (n.data ++ cbrace :: cbrace :: r).dropWhile (fun c => c != cbrace)
        = cbrace :: cbrace :: r := by
      rw [List.dropWhile_append_of_pos hall]
      simp [List.dropWhile_cons]
    have hni : n.data.isEmpty = false := by
      cases hd : n.data with
      | nil => exact absurd hd hne
      | cons a t => rfl
    have hmk : (⟨n.data⟩ : String) = n := by cases n; rfl
    simp [matchPh, htake, hdrop, hni, hmk]

theorem matchPh_length {l : List Char} {n : String} {r : List Char}
    (h : matchPh l = some (n, r)) : r.length + 5 ≤ l.length := by
  obtain ⟨hne, -, rfl⟩ := (matchPh_some_iff l n r).1 h
  have h1 : 1 ≤ n.data.length := by
    cases hd : n.data with
    | nil => exact absurd hd hne
    | cons a t => simp [hd]
  simp only [List.length_cons, List.length_append]
  omega

theorem firstMissing_cons_lit (vars : String → Option String) (c : Char) (tail : List Seg) :
    firstMissing vars (Seg.lit c :: tail) = firstMissing vars tail := by
  simp [firstMissing, List.findSome?_cons]

theorem firstMissing_cons_ph_some {vars : String → Option String} {n : String} {v : String}
    (tail : List Seg) (hv : vars n = some v) :
    firstMissing vars (Seg.ph n :: tail) = firstMissing vars tail := by
  simp [firstMissing, List.findSome?_cons, hv]

theorem firstMissing_cons_ph_none {vars : String → Option String} {n : String}
    (tail : List Seg) (hv : vars n = none) :
    firstMissing vars (Seg.ph n :: tail) = some n := by
  simp [firstMissing, List.findSome?_cons, hv]

theorem evalGo_spec (vars : String → Option String) :
    ∀ fuel l, l.length ≤ fuel →
      evalGo vars fuel l =
        match firstMissing vars (segsGo fuel l) with
        | some m => .error ("invalid variable: " ++ m)
        | none => .ok ((segsGo fuel l).map (renderSeg vars)).flatten := by
  intro fuel
  induction fuel with
  | zero =>
    intro l hl
    have : l = [] := List.length_eq_zero.1 (Nat.le_zero.1 hl)
    subst this
    rfl
  | succ fuel ih =>
    intro l hl
    cases l with
    | nil => rfl
    | cons c cs =>
      cases hm : matchPh (c :: cs) with
      | none =>
        have hcs : cs.length ≤ fuel := by
          simp only [List.length_cons] at hl
          omega
        simp only [evalGo, segsGo, hm]
        rw [ih cs hcs, firstMissing_cons_lit]
        cases hfm : firstMissing vars (segsGo fuel cs) with
        | some m => simp [Except.map]
        | none => simp [Except.map, renderSeg]
      | some nr =>
        obtain ⟨name, rest⟩ := nr
        have hrest : rest.length ≤ fuel := by
          have hlen := matchPh_length hm
          simp only [List.length_cons] at hlen hl
          omega
        simp only [evalGo, segsGo, hm]
        cases hv : vars name with
        | none => rw [firstMissing_cons_ph_none _ hv]
        | some v =>
          rw [ih rest hrest, firstMissing_cons_ph_some _ hv]
          cases hfm : firstMissing vars (segsGo fuel rest) with
          | some m => simp [Except.map]
          | none => simp [Except.map, renderSeg, hv]

theorem evalFilter_spec (t : String) (vars : String → Option String) :
    evalFilter t vars =
      match firstMissing vars (segsOf t.data) with
      | some m => .error ("invalid variable: " ++ m)
      | none => .ok ⟨((segsOf t.data).map (renderSeg vars)).flatten⟩ := by
  unfold evalFilter segsOf
  rw [evalGo_spec vars t.data.length t.data le_rfl]
  cases firstMissing vars (segsGo t.data.length t.data) <;> simp [Except.map]

theorem firstMissing_eq_none_iff (vars : String → Option String) (segs : List Seg) :
    firstMissing vars segs = none ↔ ∀ n, Seg.ph n ∈ segs → (vars n).isSome := by
  induction segs with
  | nil => simp [firstMissing]
  | cons s tail ih =>
    cases s with
    | lit c =>
      rw [firstMissing_cons_lit, ih]
      simp [List.mem_cons]
    | ph m =>
      cases hv : vars m with
      | none =>
        rw [firstMissing_cons_ph_none tail hv]
        constructor
        · intro h; exact absurd h (by simp)
        · intro h
          have hm2 := h m (by simp)
          rw [hv] at hm2
          simp at hm2
      | some v =>
        rw [firstMissing_cons_ph_some tail hv, ih]
        constructor
        · intro h n hn
          rcases List.mem_cons.1 hn with h1 | h2
          · injection h1 with h1
            subst h1
            simp [hv]
          · exact h n h2
        · intro h n hn
          exact h n (List.mem_cons_of_mem _ hn)

theorem firstMissing_some {vars : String → Option String} {segs : List Seg} {m : String}
    (h : firstMissing vars segs = some m) : Seg.ph m ∈ segs ∧ vars m = none := by
  obtain ⟨s, hs, hsome⟩ := List.exists_of_findSome?_eq_some h
  cases s with
  | lit c => simp at hsome
  | ph n =>
    have hsome2 : (match vars n with | some _ => none | none => some n) = some m := hsome
    cases hv : vars n with
    | some v => rw [hv] at hsome2; simp at hsome2
    | none =>
      rw [hv] at hsome2
      simp only [Option.some.injEq] at hsome2
      subst hsome2
      exact ⟨hs, hv⟩

theorem mem_refsOf_iff (l : List Char) (n : String) :
    n ∈ refsOf l ↔ Seg.ph n ∈ segsOf l := by
  unfold refsOf
  rw [List.mem_filterMap]
  constructor
  · rintro ⟨s, hs, hsome⟩
    cases s with
    | lit c => simp at hsome
    | ph m =>
      simp only [Option.some.injEq] at hsome
      subst hsome
      exact hs
  · intro h
    exact ⟨Seg.ph n, h, rfl⟩

theorem escape_nonMeta (v : String) : ∀ c ∈ (escape v).data, nonMeta c := by
  intro c hc
  have hc2 : c ∈ (v.data.map escapeChar).flatten := hc
  rw [List.mem_flatten] at hc2
  obtain ⟨l, hl, hcl⟩ := hc2
  rw [List.mem_map] at hl
  obtain ⟨a, -, rfl⟩ := hl
  unfold escapeChar at hcl
  split at hcl
  · simp at hcl
    rcases hcl with rfl | rfl | rfl <;> decide
  · split at hcl
    · simp at hcl
      rcases hcl with rfl | rfl | rfl <;> decide
    · split at hcl
      · simp at hcl
        rcases hcl with rfl | rfl | rfl <;> decide
      · split at hcl
        · simp at hcl
          rcases hcl with rfl | rfl | rfl <;> decide
        · split at hcl
          · simp at hcl
            rcases hcl with rfl | rfl | rfl <;> decide
          · next h1 h2 h3 h4 h5 =>
            simp at hcl
            subst hcl
            exact ⟨h2, h3, h1, h5⟩

/-- Template used by the counterexample to C6: a single placeholder `a`. -/
def tplA : String := "\x7b\x7ba\x7d\x7d"

/-- Variable set used by the counterexample to C6: the variable `a` is
supplied, and its value is itself a placeholder-shaped token. -/
def varsA : String → Option String :=
  fun n => if n = "a" then some "\x7b\x7bb\x7d\x7d" else none

/-- C6 counterexample: the variable set supplies a value for every
placeholder the template references (only `a`), yet the rendered filter
string is exactly the token-shaped string and thus contains an unresolved
placeholder-shaped token: brace characters are not escaped, so a variable
value shaped like a placeholder survives into the output verbatim. -/
theorem c6_counterexample :
    (refsOf tplA.data).all (fun n => (varsA n).isSome) = true ∧
      evalFilter tplA varsA = .ok "\x7b\x7bb\x7d\x7d" ∧
      hasToken "\x7b\x7bb\x7d\x7d".data = true :=
  ⟨rfl, rfl, rfl⟩

/-- C6 (amended): for every template and every variable set supplying a
value for each placeholder the template references, rendering succeeds and
the output is the concatenation of the template literal segments with
the escaped variable values — every placeholder of the template is
substituted — and every character of every escaped value is none of the
query-language structural metacharacters (parenthesis, asterisk, null
byte), so a value such as `a)(uid=*` cannot alter the structure of the
resulting filter.  The output string may nevertheless contain
placeholder-shaped `..` tokens when a variable value itself contains
braces, since braces are not escaped (see the counterexample). -/
theorem c6_escaped_rendering (t : String) (vars : String → Option String)
    (h : ∀ n ∈ refsOf t.data, (vars n).isSome) :
    evalFilter t vars = .ok ⟨((segsOf t.data).map (renderSeg vars)).flatten⟩ ∧
      ∀ v : String, ∀ c ∈ (escape v).data, nonMeta c := by
  refine ⟨?_, escape_nonMeta⟩
  rw [evalFilter_spec]
  have hnone : firstMissing vars (segsOf t.data) = none := by
    rw [firstMissing_eq_none_iff]
    intro n hn
    exact h n ((mem_refsOf_iff t.data n).2 hn)
  rw [hnone]

/-- Template used by the C6 witness. -/
def tplW : String := "(uid=\x7b\x7bname\x7d\x7d)"

/-- Variable set used by the C6 witness: an injection-shaped username. -/
def varsW : String → Option String :=
  fun n => if n = "name" then some "a)(uid=*" else none

/-- C6 witness: the amended theorem applied at a concrete template and an
injection-shaped username value. -/
theorem c6_escaped_rendering_witness :
    evalFilter tplW varsW = .ok ⟨((segsOf tplW.data).map (renderSeg varsW)).flatten⟩ ∧
      ∀ v : String, ∀ c ∈ (escape v).data, nonMeta c :=
  c6_escaped_rendering tplW varsW (by decide)

/-- C7: rendering a template that references a placeholder whose variable
is undefined in the supplied variable set fails with the
`invalid variable` error naming a missing variable (the first missing one
in scan order), rather than returning a string. -/
theorem c7_missing_variable (t : String) (vars : String → Option String) (name : String)
    (href : name ∈ refsOf t.data) (hmiss : vars name = none) :
    ∃ m, m ∈ refsOf t.data ∧ vars m = none ∧
      evalFilter t vars = .error ("invalid variable: " ++ m) := by
  cases hfm : firstMissing vars (segsOf t.data) with
  | none =>
    rw [firstMissing_eq_none_iff] at hfm
    have := hfm name ((mem_refsOf_iff t.data name).1 href)
    rw [hmiss] at this
    simp at this
  | some m =>
    obtain ⟨hmem, hnone⟩ := firstMissing_some hfm
    refine ⟨m, (mem_refsOf_iff t.data m).2 hmem, hnone, ?_⟩
    rw [evalFilter_spec, hfm]

/-- Template used by the C7 witness: references the placeholder `group`. -/
def tplG : String := "(cn=\x7b\x7bgroup\x7d\x7d)"

/-- C7 witness: rendering a template referencing `group` with an empty
variable set fails with the `invalid variable` error. -/
theorem c7_missing_variable_witness :
    ∃ m, m ∈ refsOf tplG.data ∧ (fun _ : String => (none : Option String)) m = none ∧
      evalFilter tplG (fun _ => none) = .error ("invalid variable: " ++ m) :=
  c7_missing_variable tplG (fun _ => none) "group" (by decide) rfl

/-- The four-character literal of two opening then two closing braces. -/
def emptyPh : String := "\x7b\x7b\x7d\x7d"

/-- C10: the template scanner matcher matches exactly the strings that
begin with two opening braces, one or more characters other than a closing
brace, then two closing braces; in particular the brace literal with an
empty placeholder name (four characters) is not matched, so rendering it
leaves it verbatim and raises no error, for every variable set. -/
theorem c10_exact_tokens :
    (∀ (l : List Char) (n : String) (r : List Char),
        matchPh l = some (n, r) ↔
          n.data ≠ [] ∧ cbrace ∉ n.data ∧
            l = obrace :: obrace :: (n.data ++ cbrace :: cbrace :: r)) ∧
      ∀ vars : String → Option String, evalFilter emptyPh vars = .ok emptyPh :=
  ⟨matchPh_some_iff, fun _ => rfl⟩

/-- Service-account credentials of the `bind` configuration section. -/
structure Creds where
  dn : String
  password : String
deriving DecidableEq

/-- The source function `DEFAULTS` object. -/
structure DefaultsT where
  checkCertificate : Bool
  filter : String

/-- The source function `DEFAULTS`: certificate checking on, search filter on the
`uid` attribute. -/
def DEFAULTS : DefaultsT :=
  { checkCertificate := true
    filter := "(uid=\x7b\x7bname\x7d\x7d)" }

/-- The `tlsOptions` object built by `configure`: certificate validation
flag and the optional trust-store bytes read from the CA paths. -/
structure TlsOptions where
  rejectUnauthorized : Bool
  ca : Option (List (List Nat))
deriving DecidableEq

/-- The `clientOpts` object built by `configure` and later passed to
`createClient`. -/
structure ClientOpts where
  url : String
  maxConnections : Nat
  bindDN : Option String
  bindCredentials : Option String
  tlsOptions : TlsOptions
deriving DecidableEq

/-- A configuration object as consumed by `configure`; absent fields are
`none`. The schema requires `uri` and `base`. -/
structure Conf where
  uri : String
  certificateAuthorities : Option (List String)
  checkCertificate : Option Bool
  bind : Option Creds
  base : String
  filter : Option String

/-- The provider state `configure` stores: `_clientOpts`, `_credentials`,
`_searchBase`, `_searchFilter`. -/
structure PluginState where
  clientOpts : ClientOpts
  credentials : Option Creds
  searchBase : String
  searchFilter : String
deriving DecidableEq

/-- The source function `AuthLdap.configure`: derive the connection options and
store the credentials, search base and search filter, applying the
defaults for `checkCertificate` and `filter` when the fields are absent.
File reads of the CA paths are modelled by the `readFile` environment
function. -/
def configure (conf : Conf) (readFile : String → List Nat) : PluginState :=
  let checkCertificate := conf.checkCertificate.getD DEFAULTS.checkCertificate
  { clientOpts :=
      { url := conf.uri
        maxConnections := 5
        bindDN := conf.bind.map (fun b => b.dn)
        bindCredentials := conf.bind.map (fun b => b.password)
        tlsOptions :=
          { rejectUnauthorized := checkCertificate
            ca := conf.certificateAuthorities.map (fun paths => paths.map readFile) } }
    credentials := conf.bind
    searchBase := conf.base
    searchFilter := conf.filter.getD DEFAULTS.filter }

/-- A directory entry as collected from the search response stream: the
source pushes `entry.json` and later reads its `objectName` (the
distinguished name). -/
structure Entry where
  objectName : String
deriving DecidableEq

/-- The behaviour of the underlying directory client for one
`_authenticate` call, with an abstract library-error type `ε`:
the outcome of waiting for the `connect` event, the outcome of
`bind(dn, password)` as a function of its arguments, and the outcome of a
search as the collected entry list in server order together with the
status carried by the `end` event (or a library rejection). -/
structure LdapEnv (ε : Type) where
  connect : Except ε Unit
  bind : String → String → Except ε Unit
  search : String → String → Except ε (List Entry × Nat)

/-- Errors `_authenticate` can propagate: a rejection from the directory
library, or an error the source itself throws (with its message). -/
inductive AuthErr (ε : Type) where
  | lib (e : ε)
  | thrown (msg : String)
deriving DecidableEq

/-- Observable client operations of one `_authenticate` call, in order. -/
inductive Ev where
  | createClient
  | bindAttempt (dn pw : String)
  | searchReq (base filter : String)
  | unbind
deriving DecidableEq

/-- The variable set the source passes to `evalFilter`: only `name` is
defined, bound to the username. -/
def varsFor (username : String) : String → Option String :=
  fun n => if n = "name" then some username else none

/-- The source function per-entry loop: for each entry in order, attempt
`bind(entry.objectName, password)`; on success return `{ username }` at
once; on any error continue with the next entry (the source catch has no
error discrimination).  Returns the result and the bind attempts made. -/
def tryEntries (env : LdapEnv ε) (username password : String) :
    List Entry → Option String × List Ev
  | [] => (none, [])
  | e :: rest =>
    match env.bind e.objectName password with
    | .ok _ => (some username, [.bindAttempt e.objectName password])
    | .error _ =>
      let rt := tryEntries env username password rest
      (rt.1, .bindAttempt e.objectName password :: rt.2)

/-- The search phase of `_authenticate`: render the filter (a rendering
error is thrown), issue the search, check the end status (a non-zero
status is thrown as `unexpected search response status`), then run the
per-entry loop. -/
def searchAndTry (st : PluginState) (env : LdapEnv ε) (username password : String) :
    Except (AuthErr ε) (Option String) × List Ev :=
  match evalFilter st.searchFilter (varsFor username) with
  | .error msg => (.error (.thrown msg), [])
  | .ok filter =>
    match env.search st.searchBase filter with
    | .error e => (.error (.lib e), [.searchReq st.searchBase filter])
    | .ok (entries, status) =>
      if status ≠ 0 then
        (.error (.thrown ("unexpected search response status: " ++ toString status)),
          [.searchReq st.searchBase filter])
      else
        let rt := tryEntries env username password entries
        (.ok rt.1, .searchReq st.searchBase filter :: rt.2)

/-- The body of the source `try` block: wait for the connection, bind as
the service account when one is configured (a rejection propagates), then
search and run the per-entry loop. -/
def authBody (st : PluginState) (env : LdapEnv ε) (username password : String) :
    Except (AuthErr ε) (Option String) × List Ev :=
  match env.connect with
  | .error e => (.error (.lib e), [])
  | .ok _ =>
    match st.credentials with
    | none => searchAndTry st env username password
    | some c =>
      match env.bind c.dn c.password with
      | .error e => (.error (.lib e), [.bindAttempt c.dn c.password])
      | .ok _ =>
        let rt := searchAndTry st env username password
        (rt.1, .bindAttempt c.dn c.password :: rt.2)

/-- The source function `_authenticate`: if the username or the password is
absent, return the absence-signal with no client activity at all;
otherwise create the client, run the body, and — by the `finally` —
unbind exactly once whatever the outcome, rethrowing any error. -/
def authenticate (st : PluginState) (env : LdapEnv ε)
    (usernameInput passwordInput : Option String) :
    Except (AuthErr ε) (Option String) × List Ev :=
  match usernameInput, passwordInput with
  | some u, some p =>
    let rt := authBody st env u p
    (rt.1, .createClient :: (rt.2 ++ [.unbind]))
  | _, _ => (.ok none, [])

/-- The leading service-bind events of the trace, determined by whether a
service account is configured. -/
def serviceTrace (st : PluginState) : List Ev :=
  match st.credentials with
  | none => []
  | some c => [.bindAttempt c.dn c.password]

/-- The configured service bind, when present, is accepted by the
directory. -/
def serviceBindOk (st : PluginState) (env : LdapEnv ε) : Prop :=
  ∀ c, st.credentials = some c → env.bind c.dn c.password = .ok ()

deriving instance DecidableEq for Except

theorem authBody_after_service {ε : Type} {st : PluginState} {env : LdapEnv ε} {u p : String}
    (hc : env.connect = .ok ()) (hsb : serviceBindOk st env) :
    authBody st env u p =
      ((searchAndTry st env u p).1, serviceTrace st ++ (searchAndTry st env u p).2) := by
  simp only [authBody, hc]
  cases hcred : st.credentials with
  | none => simp [serviceTrace, hcred]
  | some c => simp [serviceTrace, hcred, hsb c hcred]

theorem searchAndTry_ok {ε : Type} {st : PluginState} {env : LdapEnv ε} {u p f : String}
    {entries : List Entry}
    (hf : evalFilter st.searchFilter (varsFor u) = .ok f)
    (hs : env.search st.searchBase f = .ok (entries, 0)) :
    searchAndTry st env u p =
      (.ok (tryEntries env u p entries).1,
        Ev.searchReq st.searchBase f :: (tryEntries env u p entries).2) := by
  simp [searchAndTry, hf, hs]

theorem searchAndTry_badStatus {ε : Type} {st : PluginState} {env : LdapEnv ε}
    {u p f : String} {entries : List Entry} {status : Nat}
    (hf : evalFilter st.searchFilter (varsFor u) = .ok f)
    (hs : env.search st.searchBase f = .ok (entries, status))
    (hstat : status ≠ 0) :
    searchAndTry st env u p =
      (.error (.thrown ("unexpected search response status: " ++ toString status)),
        [Ev.searchReq st.searchBase f]) := by
  simp [searchAndTry, hf, hs, hstat]

theorem tryEntries_all_fail {ε : Type} (env : LdapEnv ε) (u p : String)
    (entries : List Entry)
    (hall : ∀ e ∈ entries, env.bind e.objectName p ≠ .ok ()) :
    tryEntries env u p entries =
      (none, entries.map (fun e => Ev.bindAttempt e.objectName p)) := by
  induction entries with
  | nil => rfl
  | cons e rest ih =>
    have hb : env.bind e.objectName p ≠ .ok () := hall e (by simp)
    cases hbe : env.bind e.objectName p with
    | ok x =>
      cases x
      exact absurd hbe hb
    | error x =>
      unfold tryEntries
      rw [hbe, ih (fun e2 he2 => hall e2 (List.mem_cons_of_mem _ he2))]
      simp

theorem tryEntries_first_success {ε : Type} (env : LdapEnv ε) (u p : String) :
    ∀ (entries : List Entry) (k : Nat) (hk : k < entries.length),
      env.bind (entries[k]).objectName p = .ok () →
      (∀ j (hj : j < entries.length), j < k →
          env.bind (entries[j]).objectName p ≠ .ok ()) →
      tryEntries env u p entries =
        (some u, (entries.take (k + 1)).map (fun e => Ev.bindAttempt e.objectName p)) := by
  intro entries
  induction entries with
  | nil =>
    intro k hk
    simp at hk
  | cons e rest ih =>
    intro k hk hsucc hfail
    cases k with
    | zero =>
      rw [List.getElem_cons_zero] at hsucc
      unfold tryEntries
      rw [hsucc]
      simp
    | succ k =>
      have hb : env.bind e.objectName p ≠ .ok () := by
        have := hfail 0 (by simp) (Nat.succ_pos k)
        simpa using this
      cases hbe : env.bind e.objectName p with
      | ok x =>
        cases x
        exact absurd hbe hb
      | error x =>
        unfold tryEntries
        rw [hbe]
        have hk2 : k < rest.length := by simpa using hk
        have hsucc2 : env.bind (rest[k]).objectName p = .ok () := by
          rw [List.getElem_cons_succ] at hsucc
          exact hsucc
        have hfail2 : ∀ j (hj : j < rest.length), j < k →
            env.bind (rest[j]).objectName p ≠ .ok () := by
          intro j hj hjk
          have := hfail (j + 1) (by simpa using hj) (by omega)
          rw [List.getElem_cons_succ] at this
          exact this
        rw [ih k hk2 hsucc2 hfail2]
        simp

theorem tryEntries_attempt_mem {ε : Type} (env : LdapEnv ε) (u p : String) :
    ∀ (entries : List Entry) (k : Nat) (hk : k < entries.length),
      (∀ j (hj : j < entries.length), j < k →
          env.bind (entries[j]).objectName p ≠ .ok ()) →
      Ev.bindAttempt (entries[k]).objectName p ∈ (tryEntries env u p entries).2 := by
  intro entries
  induction entries with
  | nil =>
    intro k hk
    simp at hk
  | cons e rest ih =>
    intro k hk hfail
    cases k with
    | zero =>
      rw [List.getElem_cons_zero]
      unfold tryEntries
      cases hbe : env.bind e.objectName p with
      | ok x => simp
      | error x => simp
    | succ k =>
      have hb : env.bind e.objectName p ≠ .ok () := by
        have := hfail 0 (by simp) (Nat.succ_pos k)
        simpa using this
      cases hbe : env.bind e.objectName p with
      | ok x =>
        cases x
        exact absurd hbe hb
      | error x =>
        rw [List.getElem_cons_succ]
        unfold tryEntries
        rw [hbe]
        simp only [List.mem_cons]
        right
        have hk2 : k < rest.length := by simpa using hk
        refine ih k hk2 ?_
        intro j hj hjk
        have := hfail (j + 1) (by simpa using hj) (by omega)
        rw [List.getElem_cons_succ] at this
        exact this

theorem tryEntries_no_unbind {ε : Type} (env : LdapEnv ε) (u p : String)
    (entries : List Entry) : Ev.unbind ∉ (tryEntries env u p entries).2 := by
  induction entries with
  | nil => simp [tryEntries]
  | cons e rest ih =>
    unfold tryEntries
    cases hbe : env.bind e.objectName p with
    | ok x => simp
    | error x => simp [ih]

theorem searchAndTry_no_unbind {ε : Type} (st : PluginState) (env : LdapEnv ε)
    (u p : String) : Ev.unbind ∉ (searchAndTry st env u p).2 := by
  cases hf : evalFilter st.searchFilter (varsFor u) with
  | error msg => simp [searchAndTry, hf]
  | ok filter =>
    cases hs : env.search st.searchBase filter with
    | error e => simp [searchAndTry, hf, hs]
    | ok pair =>
      obtain ⟨entries, status⟩ := pair
      by_cases hstat : status = 0
      · subst hstat
        simp [searchAndTry, hf, hs, tryEntries_no_unbind env u p entries]
      · simp [searchAndTry, hf, hs, hstat]

theorem authBody_no_unbind {ε : Type} (st : PluginState) (env : LdapEnv ε)
    (u p : String) : Ev.unbind ∉ (authBody st env u p).2 := by
  cases hc : env.connect with
  | error e => simp [authBody, hc]
  | ok x =>
    cases x
    cases hcred : st.credentials with
    | none => simp [authBody, hc, hcred, searchAndTry_no_unbind st env u p]
    | some c =>
      cases hbe : env.bind c.dn c.password with
      | error e => simp [authBody, hc, hcred, hbe]
      | ok y =>
        cases y
        simp [authBody, hc, hcred, hbe, searchAndTry_no_unbind st env u p]

/-- Library error values used by the concrete runs: a protocol rejection
of a bind (invalid credentials) or a transport-level connection
failure. -/
inductive LibErr where
  | bindRejected
  | connectionError
deriving DecidableEq

/-- A concrete provider state: no service account, default filter. -/
def st0 : PluginState :=
  { clientOpts :=
      { url := "ldap:" ++ "//ldap.example.net"
        maxConnections := 5
        bindDN := none
        bindCredentials := none
        tlsOptions := { rejectUnauthorized := true, ca := none } }
    credentials := none
    searchBase := "dc=x"
    searchFilter := DEFAULTS.filter }

/-- A concrete directory: connection succeeds, every bind is rejected,
the search returns no entry with success status. -/
def env0 : LdapEnv LibErr :=
  { connect := .ok ()
    bind := fun _ _ => .error .bindRejected
    search := fun _ _ => .ok ([], 0) }

/-- C1 counterexample: with the username present and the password the
EMPTY STRING — not absent — the verification operation does not return
immediately: the client IS created (connection opened), refuting the
claim for empty-string inputs; the source guard checks only for absent
fields. -/
theorem c1_counterexample :
    Ev.createClient ∈ (authenticate st0 env0 (some "u") (some "")).2 ∧
      (authenticate st0 env0 (some "u") (some "")).2 ≠ [] := by
  constructor
  · decide
  · decide

/-- C1 (amended): if the username or the password is ABSENT (undefined),
the verification returns the absence-signal immediately and performs no
client activity at all — no client is created and no event occurs.  An
empty-string credential is not guarded and does open a connection (see
the counterexample). -/
theorem c1_absent_guard (ε : Type) (st : PluginState) (env : LdapEnv ε)
    (un pw : Option String) (h : un = none ∨ pw = none) :
    authenticate st env un pw = (.ok none, []) := by
  rcases h with rfl | rfl
  · cases pw <;> rfl
  · cases un <;> rfl

/-- C1 witness: the amended guard applied at an absent password. -/
theorem c1_absent_guard_witness :
    authenticate st0 env0 (some "u") none = (.ok none, []) :=
  c1_absent_guard LibErr st0 env0 (some "u") none (Or.inr rfl)

/-- First candidate entry of the concrete runs. -/
def entryA : Entry := ⟨"uid=alice,dc=x"⟩

/-- Second candidate entry of the concrete runs. -/
def entryB : Entry := ⟨"uid=alice2,dc=x"⟩

/-- A concrete directory with two candidate entries: the first entry
bind fails with a transport-level connection error, the second accepts
the password. -/
def env2 : LdapEnv LibErr :=
  { connect := .ok ()
    bind := fun dn _ => if dn = "uid=alice2,dc=x" then .ok () else .error .connectionError
    search := fun _ _ => .ok ([entryA, entryB], 0) }

/-- C2 counterexample: the first candidate bind raises a transport-level
ConnectionError, yet the verification does not propagate it as a fatal
error: the loop continues, the remaining entry is attempted, and the call
returns the authenticated result — the source catch absorbs every
error. -/
theorem c2_counterexample :
    env2.bind entryA.objectName "secret" = .error LibErr.connectionError ∧
      (authenticate st0 env2 (some "alice") (some "secret")).1 = .ok (some "alice") ∧
      Ev.bindAttempt entryB.objectName "secret" ∈
        (authenticate st0 env2 (some "alice") (some "secret")).2 := by
  refine ⟨by decide, by decide, by decide⟩

/-- C2 (amended): the per-entry bind loop absorbs EVERY error an
individual bind attempt raises — protocol password rejections and
transport-level failures alike, since the source catch does not
discriminate between them.  Once the loop is reached, no per-entry bind
error is propagated: the call returns a non-exceptional result, and every
entry whose predecessors all failed to bind is still attempted. -/
theorem c2_loop_absorbs_all_errors (ε : Type) (st : PluginState) (env : LdapEnv ε)
    (u p f : String) (entries : List Entry)
    (hc : env.connect = .ok ()) (hsb : serviceBindOk st env)
    (hf : evalFilter st.searchFilter (varsFor u) = .ok f)
    (hs : env.search st.searchBase f = .ok (entries, 0)) :
    (∃ r, (authenticate st env (some u) (some p)).1 = .ok r) ∧
      ∀ k (hk : k < entries.length),
        (∀ j (hj : j < entries.length), j < k →
            env.bind (entries[j]).objectName p ≠ .ok ()) →
        Ev.bindAttempt (entries[k]).objectName p ∈
          (authenticate st env (some u) (some p)).2 := by
  have hbody := authBody_after_service (u := u) (p := p) hc hsb
  have hst := searchAndTry_ok (p := p) hf hs
  constructor
  · refine ⟨(tryEntries env u p entries).1, ?_⟩
    show (authBody st env u p).1 = _
    rw [hbody, hst]
  · intro k hk hfail
    have hmem := tryEntries_attempt_mem env u p entries k hk hfail
    show Ev.bindAttempt (entries[k]).objectName p ∈
      Ev.createClient :: ((authBody st env u p).2 ++ [Ev.unbind])
    rw [hbody, hst]
    simp only [List.mem_cons, List.mem_append]
    right
    left
    right
    right
    exact hmem

/-- C2 witness: the amended theorem applied at the concrete directory
where the first entry bind raises a connection error and the second
accepts: no error propagates and each entry with all-failing predecessors
is attempted. -/
theorem c2_loop_absorbs_all_errors_witness :
    (∃ r, (authenticate st0 env2 (some "alice") (some "secret")).1 = .ok r) ∧
      ∀ k (hk : k < ([entryA, entryB] : List Entry).length),
        (∀ j (hj : j < ([entryA, entryB] : List Entry).length), j < k →
            env2.bind (([entryA, entryB] : List Entry)[j]).objectName "secret" ≠ .ok ()) →
        Ev.bindAttempt (([entryA, entryB] : List Entry)[k]).objectName "secret" ∈
          (authenticate st0 env2 (some "alice") (some "secret")).2 :=
  c2_loop_absorbs_all_errors LibErr st0 env2 "alice" "secret" "(uid=alice)"
    [entryA, entryB] rfl (fun c h => nomatch h) (by decide) rfl

/-- C3: for every execution of the verification operation that opens a
session (both credential fields supplied, so the client is created), the
close operation appears exactly once in the operation trace, and it is
the last operation — whatever the directory behaviour and whatever the
outcome (success, exhaustion, service-bind rejection, search failure,
rendering error or connection failure). -/
theorem c3_unbind_exactly_once (ε : Type) (st : PluginState) (env : LdapEnv ε)
    (u p : String) :
    ((authenticate st env (some u) (some p)).2.countP (fun e => e == Ev.unbind)) = 1 ∧
      (authenticate st env (some u) (some p)).2.getLast? = some Ev.unbind := by
  constructor
  · show (Ev.createClient :: ((authBody st env u p).2 ++ [Ev.unbind])).countP
      (fun e => e == Ev.unbind) = 1
    have h0 : (authBody st env u p).2.countP (fun e => e == Ev.unbind) = 0 := by
      rw [List.countP_eq_zero]
      intro a ha hcontra
      rw [beq_iff_eq] at hcontra
      subst hcontra
      exact authBody_no_unbind st env u p ha
    rw [List.countP_cons, List.countP_append, h0, List.countP_cons]
    rfl
  · show (Ev.createClient :: ((authBody st env u p).2 ++ [Ev.unbind])).getLast?
      = some Ev.unbind
    rw [← List.cons_append, List.getLast?_concat]

/-- C4: when the directory returns a list of candidate entries and entry
k is the first whose bind succeeds, the verification attempts exactly the
entries up to and including k, in server order, returns the authenticated
username, and entries after k are never attempted: the full operation
trace is client creation, the service bind when configured, the search,
the bind attempts on the first k+1 entries in order, and the final
unbind. -/
theorem c4_first_match_wins (ε : Type) (st : PluginState) (env : LdapEnv ε)
    (u p f : String) (entries : List Entry) (k : Nat)
    (hc : env.connect = .ok ()) (hsb : serviceBindOk st env)
    (hf : evalFilter st.searchFilter (varsFor u) = .ok f)
    (hs : env.search st.searchBase f = .ok (entries, 0))
    (hk : k < entries.length)
    (hsucc : env.bind (entries[k]).objectName p = .ok ())
    (hfail : ∀ j (hj : j < entries.length), j < k →
        env.bind (entries[j]).objectName p ≠ .ok ()) :
    authenticate st env (some u) (some p) =
      (.ok (some u),
        Ev.createClient :: (serviceTrace st ++ Ev.searchReq st.searchBase f ::
          ((entries.take (k + 1)).map (fun e => Ev.bindAttempt e.objectName p)
            ++ [Ev.unbind]))) := by
  have hbody := authBody_after_service (u := u) (p := p) hc hsb
  have hst := searchAndTry_ok (p := p) hf hs
  have htry := tryEntries_first_success env u p entries k hk hsucc hfail
  show (let rt := authBody st env u p
    ((rt.1 : Except (AuthErr ε) (Option String)),
      Ev.createClient :: (rt.2 ++ [Ev.unbind]))) = _
  rw [hbody, hst, htry]
  simp

/-- C4 witness: two candidate entries, only the second accepts the
password: only the two entries are attempted in order and the result is
the authenticated username. -/
theorem c4_first_match_wins_witness :
    authenticate st0 env2 (some "alice") (some "secret") =
      (.ok (some "alice"),
        Ev.createClient :: (serviceTrace st0 ++
          Ev.searchReq st0.searchBase "(uid=alice)" ::
          ((([entryA, entryB] : List Entry).take (1 + 1)).map
              (fun e => Ev.bindAttempt e.objectName "secret")
            ++ [Ev.unbind]))) :=
  c4_first_match_wins LibErr st0 env2 "alice" "secret" "(uid=alice)"
    [entryA, entryB] 1 rfl (fun c h => nomatch h) (by decide) rfl (by decide)
    (by decide) (by decide)

/-- A concrete directory with two candidate entries where every bind is
rejected. -/
def env5 : LdapEnv LibErr :=
  { connect := .ok ()
    bind := fun _ _ => .error .bindRejected
    search := fun _ _ => .ok ([entryA, entryB], 0) }

/-- C5: when the search yields a list of candidate entries and every
per-entry bind is rejected, the verification performs exactly one bind
attempt per entry — the loop segment of the trace is the one-to-one image of
the entry list — and returns the absence-signal, not an error. -/
theorem c5_exhaustion (ε : Type) (st : PluginState) (env : LdapEnv ε)
    (u p f : String) (entries : List Entry)
    (hc : env.connect = .ok ()) (hsb : serviceBindOk st env)
    (hf : evalFilter st.searchFilter (varsFor u) = .ok f)
    (hs : env.search st.searchBase f = .ok (entries, 0))
    (hall : ∀ e ∈ entries, env.bind e.objectName p ≠ .ok ()) :
    authenticate st env (some u) (some p) =
      (.ok none,
        Ev.createClient :: (serviceTrace st ++ Ev.searchReq st.searchBase f ::
          (entries.map (fun e => Ev.bindAttempt e.objectName p) ++ [Ev.unbind]))) := by
  have hbody := authBody_after_service (u := u) (p := p) hc hsb
  have hst := searchAndTry_ok (p := p) hf hs
  have htry := tryEntries_all_fail env u p entries hall
  show (let rt := authBody st env u p
    ((rt.1 : Except (AuthErr ε) (Option String)),
      Ev.createClient :: (rt.2 ++ [Ev.unbind]))) = _
  rw [hbody, hst, htry]
  simp

/-- C5 witness: two candidate entries, both rejecting: exactly two bind
attempts and the absence-signal. -/
theorem c5_exhaustion_witness :
    authenticate st0 env5 (some "alice") (some "pw") =
      (.ok none,
        Ev.createClient :: (serviceTrace st0 ++
          Ev.searchReq st0.searchBase "(uid=alice)" ::
          (([entryA, entryB] : List Entry).map
              (fun e => Ev.bindAttempt e.objectName "pw")
            ++ [Ev.unbind]))) :=
  c5_exhaustion LibErr st0 env5 "alice" "pw" "(uid=alice)" [entryA, entryB]
    rfl (fun c h => nomatch h) (by decide) rfl (by decide)

/-- C8: when the end event of the search response carries a non-zero status,
the verification raises the `unexpected search response status` error and
propagates it, even when entries were produced before the end event: no
per-entry bind is attempted — the trace holds only client creation, the
service bind when configured, the search and the final unbind. -/
theorem c8_search_status_fatal (ε : Type) (st : PluginState) (env : LdapEnv ε)
    (u p f : String) (entries : List Entry) (status : Nat)
    (hc : env.connect = .ok ()) (hsb : serviceBindOk st env)
    (hf : evalFilter st.searchFilter (varsFor u) = .ok f)
    (hs : env.search st.searchBase f = .ok (entries, status))
    (hstat : status ≠ 0) :
    authenticate st env (some u) (some p) =
      (.error (.thrown ("unexpected search response status: " ++ toString status)),
        Ev.createClient :: (serviceTrace st ++ Ev.searchReq st.searchBase f ::
          [Ev.unbind])) := by
  have hbody := authBody_after_service (u := u) (p := p) hc hsb
  have hst := searchAndTry_badStatus (p := p) hf hs hstat
  show (let rt := authBody st env u p
    ((rt.1 : Except (AuthErr ε) (Option String)),
      Ev.createClient :: (rt.2 ++ [Ev.unbind]))) = _
  rw [hbody, hst]
  simp

/-- A concrete directory whose search produces one entry but ends with
the non-success status 1. -/
def env8 : LdapEnv LibErr :=
  { connect := .ok ()
    bind := fun _ _ => .error .bindRejected
    search := fun _ _ => .ok ([entryA], 1) }

/-- C8 witness: a search ending with status 1 after producing one entry
propagates the search failure and attempts no per-entry bind. -/
theorem c8_search_status_fatal_witness :
    authenticate st0 env8 (some "alice") (some "pw") =
      (.error (.thrown ("unexpected search response status: " ++ toString (1 : Nat))),
        Ev.createClient :: (serviceTrace st0 ++
          Ev.searchReq st0.searchBase "(uid=alice)" :: [Ev.unbind])) :=
  c8_search_status_fatal LibErr st0 env8 "alice" "pw" "(uid=alice)" [entryA] 1
    rfl (fun c h => nomatch h) (by decide) rfl (by decide)

/-- C9: configuring without a `filter` field stores the default search
filter on the `uid` attribute; configuring without `checkCertificate`
enables server certificate validation; and in general the stored
`rejectUnauthorized` equals the configured `checkCertificate` value. -/
theorem c9_configure_defaults (conf : Conf) (readFile : String → List Nat) :
    (conf.filter = none →
        (configure conf readFile).searchFilter = "(uid=\x7b\x7bname\x7d\x7d)") ∧
      (conf.checkCertificate = none →
        (configure conf readFile).clientOpts.tlsOptions.rejectUnauthorized = true) ∧
      ∀ b, conf.checkCertificate = some b →
        (configure conf readFile).clientOpts.tlsOptions.rejectUnauthorized = b := by
  refine ⟨?_, ?_, ?_⟩
  · intro h
    simp [configure, h, DEFAULTS]
  · intro h
    simp [configure, h, DEFAULTS]
  · intro b h
    simp [configure, h]

/-- A configuration with every optional field absent. -/
def confD : Conf :=
  { uri := "ldap:" ++ "//ldap.example.net"
    certificateAuthorities := none
    checkCertificate := none
    bind := none
    base := "dc=x"
    filter := none }

/-- The same configuration with certificate checking disabled. -/
def confC : Conf :=
  { confD with checkCertificate := some false }

/-- C9 witness: the defaults theorem applied at a configuration with
absent fields and at one with `checkCertificate` set to false. -/
theorem c9_configure_defaults_witness :
    (configure confD (fun _ => [])).searchFilter = "(uid=\x7b\x7bname\x7d\x7d)" ∧
      (configure confD (fun _ => [])).clientOpts.tlsOptions.rejectUnauthorized = true ∧
      (configure confC (fun _ => [])).clientOpts.tlsOptions.rejectUnauthorized = false :=
  ⟨(c9_configure_defaults confD (fun _ => [])).1 rfl,
    (c9_configure_defaults confD (fun _ => [])).2.1 rfl,
    (c9_configure_defaults confC (fun _ => [])).2.2 false rfl⟩

end AuthLdap
